import Mathlib

/-
Verification of the SmartChoice search aggregation and caching engine.

The definitions below are a shallow embedding of the TypeScript sources:
  apps/api/src/services/productAggregationService.ts
  apps/api/src/services/searchService.ts
  apps/api/src/services/cacheService.ts
  packages/shared-types/src/api.ts
  apps/api/src/routes (search router)

Conventions of the embedding:
  - JS numbers are modelled as rationals (ℚ); the values manipulated here
    (prices, ratings, confidences, deal scores, counts) are small enough
    that IEEE-754 doubles represent the relevant comparisons exactly.
  - `undefined`/optional fields are modelled as `Option`.
  - JS falsiness of a number is `= 0`, of a string is `= ""`, of an
    absent value is `none`.
  - `Array.prototype.sort` (stable since ES2019) is modelled by
    `List.mergeSort`, which is also a stable sort; a stable sort is
    uniquely determined by its comparison predicate, so this is faithful.
  - Thrown exceptions of a collaborator are modelled as `Except Unit`.
-/

/-! ## JS string primitives -/

/-- JS `String.prototype.toLowerCase` (ASCII range, which is all the
sources rely on). -/
def jsToLower (s : String) : String :=
  String.mk (s.data.map Char.toLower)

/-- Check that the second list occurs at the start of the first. -/
def charsStartWith : List Char → List Char → Bool
  | _, [] => true
  | [], _ :: _ => false
  | c :: cs, d :: ds => c == d && charsStartWith cs ds

/-- Check that the second list occurs contiguously inside the first. -/
def charsContain : List Char → List Char → Bool
  | [], needle => charsStartWith [] needle
  | c :: cs, needle => charsStartWith (c :: cs) needle || charsContain cs needle

/-- JS `String.prototype.includes`. -/
def jsIncludes (s sub : String) : Bool :=
  charsContain s.data sub.data

/-- JS regex class `\w` (ASCII word character). -/
def isWordChar (c : Char) : Bool :=
  c.isAlphanum || c == '_'

/-- JS regex class `\s` (ASCII whitespace; the unicode spaces never occur
in the data handled here). -/
def isSpaceChar (c : Char) : Bool :=
  c == ' ' || c == '\t' || c == '\n' || c == '\r' || c == '\x0b' || c == '\x0c'

/-- Helper for `collapseSpaces`: the flag records whether the previous
character was whitespace (in which case the current run has already
emitted its single blank). -/
def collapseSpacesAux : Bool → List Char → List Char
  | _, [] => []
  | inRun, c :: cs =>
    if isSpaceChar c then
      if inRun then collapseSpacesAux true cs
      else ' ' :: collapseSpacesAux true cs
    else c :: collapseSpacesAux false cs

/-- JS `.replace(/\s+/g, ' ')`: collapse each whitespace run to one blank. -/
def collapseSpaces (l : List Char) : List Char :=
  collapseSpacesAux false l

/-- JS `String.prototype.trim` (restricted to ASCII whitespace). -/
def trimChars (l : List Char) : List Char :=
  ((l.dropWhile isSpaceChar).reverse.dropWhile isSpaceChar).reverse

/-! ## Data model (packages/shared-types/src/product.ts, EnhancedProduct)

`dealScore` is typed as an object in the zod schema, but every producer in
the codebase (Best Buy adapter, Amazon adapter, mock data) stores a plain
number in it and every consumer compares it numerically, so it is
embedded as an optional rational. -/

structure EnhancedProduct where
  id : String
  title : String
  description : String
  price : ℚ
  brand : Option String
  category : Option String
  rating : Option ℚ
  availability : String
  features : Option (List String)
  confidence : ℚ
  dealScore : Option ℚ
deriving DecidableEq

/-- JS `product.dealScore || 0` (the deal score is a non-negative number,
and `0 || 0` is `0`, so `getD` matches the falsiness coercion). -/
def dealScoreVal (p : EnhancedProduct) : ℚ :=
  p.dealScore.getD 0

/-- JS `product.rating || 0`. -/
def ratingVal (p : EnhancedProduct) : ℚ :=
  p.rating.getD 0

/-- JS `!product.rating`: true when the rating is absent or zero. -/
def ratingFalsy (p : EnhancedProduct) : Bool :=
  match p.rating with
  | none => true
  | some r => r == 0

/-! ## productAggregationService.ts : deduplication -/

namespace ProductAggregationService

/-- `normalizeTitle` (productAggregationService.ts lines 200-206):
lowercase, strip everything outside `\w` and `\s`, collapse whitespace,
trim. -/
def normalizeTitle (title : String) : String :=
  String.mk (trimChars (collapseSpaces
    ((title.data.map Char.toLower).filter (fun c => isWordChar c || isSpaceChar c))))

/-- The template literal `` `${normalizedTitle}:${product.brand?.toLowerCase()}` ``;
an absent brand interpolates as the string `"undefined"`. -/
def brandKeyPart : Option String → String
  | some b => jsToLower b
  | none => "undefined"

/-- The dedup key of a product. -/
def dedupKey (p : EnhancedProduct) : String :=
  normalizeTitle p.title ++ ":" ++ brandKeyPart p.brand

/-- The replacement test in `deduplicateProducts`:
`product.confidence > existing.confidence || (product.confidence === existing.confidence && (product.dealScore || 0) > (existing.dealScore || 0))`. -/
def beats (product existing : EnhancedProduct) : Bool :=
  decide (existing.confidence < product.confidence) ||
    (decide (product.confidence = existing.confidence) &&
      decide (dealScoreVal existing < dealScoreVal product))

end ProductAggregationService

/-! ## JS `Map` with string keys, as an insertion-ordered association list -/

/-- JS `Map.prototype.get`. -/
def mapGet {α : Type} (m : List (String × α)) (k : String) : Option α :=
  match m with
  | [] => none
  | (k', v) :: rest => if k' = k then some v else mapGet rest k

/-- JS `Map.prototype.set`: replace in place if the key is present,
otherwise append at the end (JS maps preserve insertion order). -/
def mapSet {α : Type} (m : List (String × α)) (k : String) (v : α) : List (String × α) :=
  match m with
  | [] => [(k, v)]
  | (k', v') :: rest => if k' = k then (k', v) :: rest else (k', v') :: mapSet rest k v

/-- JS `Map.prototype.delete` (drops the entry with the given key). -/
def mapDelete {α : Type} (m : List (String × α)) (k : String) : List (String × α) :=
  match m with
  | [] => []
  | (k', v') :: rest => if k' = k then rest else (k', v') :: mapDelete rest k

namespace ProductAggregationService

/-- The `for (const product of products)` loop of `deduplicateProducts`
(lines 174-198), threading the `seen` map. -/
def dedupFold (seen : List (String × EnhancedProduct)) :
    List EnhancedProduct → List (String × EnhancedProduct)
  | [] => seen
  | product :: rest =>
    match mapGet seen (dedupKey product) with
    | none => dedupFold (mapSet seen (dedupKey product) product) rest
    | some existing =>
      if beats product existing then dedupFold (mapSet seen (dedupKey product) product) rest
      else dedupFold seen rest

/-- `deduplicateProducts`: run the fold from an empty map and return
`Array.from(seen.values())`. -/
def deduplicateProducts (products : List EnhancedProduct) : List EnhancedProduct :=
  (dedupFold [] products).map Prod.snd

end ProductAggregationService

example :
    ProductAggregationService.normalizeTitle "  Apple  MacBook-Pro!!  14\"  " =
      "apple macbookpro 14" := by decide

/-! ## Lemmas about the JS map model -/

theorem mapGet_mapSet_self {α : Type} (m : List (String × α)) (k : String) (v : α) :
    mapGet (mapSet m k v) k = some v := by
  induction m with
  | nil => simp [mapSet, mapGet]
  | cons e rest ih =>
    by_cases h : e.1 = k
    · simp [mapSet, mapGet, h]
    · simp [mapSet, mapGet, h, ih]

theorem mapGet_cons {α : Type} (e : String × α) (rest : List (String × α)) (k : String) :
    mapGet (e :: rest) k = if e.1 = k then some e.2 else mapGet rest k := rfl

theorem mapSet_cons {α : Type} (e : String × α) (rest : List (String × α))
    (k : String) (v : α) :
    mapSet (e :: rest) k v =
      if e.1 = k then (e.1, v) :: rest else e :: mapSet rest k v := rfl

theorem mapGet_mapSet_ne {α : Type} (m : List (String × α)) (k k' : String) (v : α)
    (h : k ≠ k') : mapGet (mapSet m k v) k' = mapGet m k' := by
  induction m with
  | nil => simp [mapSet, mapGet, h]
  | cons e rest ih =>
    have h' : ¬ k' = k := fun hh => h hh.symm
    by_cases h0 : e.1 = k
    · simp [mapSet_cons, mapGet_cons, h0, h, h']
    · by_cases h1 : e.1 = k'
      · simp [mapSet_cons, mapGet_cons, h0, h1, h']
      · simp [mapSet_cons, mapGet_cons, h0, h1, ih]

theorem mem_mapSet {α : Type} (m : List (String × α)) (k : String) (v : α)
    (e : String × α) (he : e ∈ mapSet m k v) : e = (k, v) ∨ e ∈ m := by
  induction m with
  | nil =>
    simp only [mapSet, List.mem_singleton] at he
    exact Or.inl he
  | cons e0 rest ih =>
    by_cases h0 : e0.1 = k
    · rw [show mapSet (e0 :: rest) k v = (e0.1, v) :: rest by simp [mapSet, h0]] at he
      rcases List.mem_cons.mp he with rfl | h
      · exact Or.inl (by rw [h0])
      · exact Or.inr (List.mem_cons_of_mem _ h)
    · rw [show mapSet (e0 :: rest) k v = e0 :: mapSet rest k v by simp [mapSet, h0]] at he
      rcases List.mem_cons.mp he with rfl | h
      · exact Or.inr (List.mem_cons_self _ _)
      · rcases ih h with h' | h'
        · exact Or.inl h'
        · exact Or.inr (List.mem_cons_of_mem _ h')

theorem mapGet_mem {α : Type} (m : List (String × α)) (k : String) (v : α)
    (h : mapGet m k = some v) : (k, v) ∈ m := by
  induction m with
  | nil => simp [mapGet] at h
  | cons e rest ih =>
    by_cases h0 : e.1 = k
    · rw [show (e :: rest) = ((e.1, e.2) :: rest) by simp] at h ⊢
      simp only [mapGet, if_pos h0, Option.some.injEq] at h
      rw [← h, h0]
      exact List.mem_cons_self _ _
    · rw [show (e :: rest) = ((e.1, e.2) :: rest) by simp] at h ⊢
      simp only [mapGet, if_neg h0] at h
      exact List.mem_cons_of_mem _ (ih (by simpa using h))

theorem keys_mapSet {α : Type} (m : List (String × α)) (k : String) (v : α) :
    (mapSet m k v).map Prod.fst = m.map Prod.fst ∨
      ((mapSet m k v).map Prod.fst = m.map Prod.fst ++ [k] ∧ k ∉ m.map Prod.fst) := by
  induction m with
  | nil => right; simp [mapSet]
  | cons e rest ih =>
    by_cases h0 : e.1 = k
    · left
      rw [show mapSet (e :: rest) k v = (e.1, v) :: rest by simp [mapSet, h0]]
      simp
    · rw [show mapSet (e :: rest) k v = e :: mapSet rest k v by simp [mapSet, h0]]
      rcases ih with h | ⟨h, hk⟩
      · left; simp [h]
      · right
        constructor
        · simp [h]
        · simp only [List.map_cons, List.mem_cons]
          rintro (h1 | h1)
          · exact h0 h1.symm
          · exact hk h1

theorem nodup_keys_mapSet {α : Type} (m : List (String × α)) (k : String) (v : α)
    (h : (m.map Prod.fst).Nodup) : ((mapSet m k v).map Prod.fst).Nodup := by
  rcases keys_mapSet m k v with hk | ⟨hk, hnot⟩
  · rw [hk]; exact h
  · rw [hk]
    simp [List.nodup_append, h, hnot]

/-! ## C1: the dedup invariant -/

namespace ProductAggregationService

theorem dedupFold_nil (seen : List (String × EnhancedProduct)) :
    dedupFold seen [] = seen := rfl

theorem dedupFold_cons (seen : List (String × EnhancedProduct))
    (p : EnhancedProduct) (rest : List EnhancedProduct) :
    dedupFold seen (p :: rest) =
      match mapGet seen (dedupKey p) with
      | none => dedupFold (mapSet seen (dedupKey p) p) rest
      | some existing =>
        if beats p existing then dedupFold (mapSet seen (dedupKey p) p) rest
        else dedupFold seen rest := rfl

/-- The ordering in which `deduplicateProducts` keeps the better product:
strictly higher confidence, or equal confidence and at-least-equal deal
score. -/
def LexLe (p q : EnhancedProduct) : Prop :=
  p.confidence < q.confidence ∨
    (p.confidence = q.confidence ∧ dealScoreVal p ≤ dealScoreVal q)

theorem lexLe_refl (p : EnhancedProduct) : LexLe p p :=
  Or.inr ⟨rfl, le_refl _⟩

theorem lexLe_trans {p q r : EnhancedProduct} (h1 : LexLe p q) (h2 : LexLe q r) :
    LexLe p r := by
  rcases h1 with h1 | ⟨h1, h1'⟩ <;> rcases h2 with h2 | ⟨h2, h2'⟩
  · exact Or.inl (h1.trans h2)
  · exact Or.inl (h2 ▸ h1)
  · exact Or.inl (h1 ▸ h2)
  · exact Or.inr ⟨h1.trans h2, h1'.trans h2'⟩

theorem lexLe_of_beats {p q : EnhancedProduct} (h : beats p q = true) : LexLe q p := by
  unfold beats at h
  simp only [Bool.or_eq_true, Bool.and_eq_true, decide_eq_true_eq] at h
  rcases h with h | ⟨h, h'⟩
  · exact Or.inl h
  · exact Or.inr ⟨h.symm, le_of_lt h'⟩

theorem lexLe_of_not_beats {p q : EnhancedProduct} (h : beats p q = false) : LexLe p q := by
  unfold beats at h
  simp only [Bool.or_eq_false_iff, Bool.and_eq_false_iff, decide_eq_false_iff_not,
    not_lt] at h
  obtain ⟨h1, h2⟩ := h
  rcases lt_or_eq_of_le h1 with hlt | heq
  · exact Or.inl hlt
  · rcases h2 with h2 | h2
    · exact absurd heq h2
    · exact Or.inr ⟨heq, h2⟩

/-- Well-formedness of the `seen` map: keys are the dedup keys of their
values and are pairwise distinct. -/
def SeenWF (m : List (String × EnhancedProduct)) : Prop :=
  (∀ e ∈ m, dedupKey e.2 = e.1) ∧ (m.map Prod.fst).Nodup

theorem seenWF_mapSet {m : List (String × EnhancedProduct)} (h : SeenWF m)
    (k : String) (v : EnhancedProduct) (hv : dedupKey v = k) : SeenWF (mapSet m k v) := by
  constructor
  · intro e he
    rcases mem_mapSet m k v e he with rfl | he
    · exact hv
    · exact h.1 e he
  · exact nodup_keys_mapSet m k v h.2

theorem seenWF_dedupFold {m : List (String × EnhancedProduct)} (h : SeenWF m)
    (ps : List EnhancedProduct) : SeenWF (dedupFold m ps) := by
  induction ps generalizing m with
  | nil => exact h
  | cons p rest ih =>
    rw [dedupFold_cons]
    cases hget : mapGet m (dedupKey p) with
    | none => exact ih (seenWF_mapSet h (dedupKey p) p rfl)
    | some existing =>
      by_cases hb : beats p existing = true
      · simp only [hb, if_true]
        exact ih (seenWF_mapSet h (dedupKey p) p rfl)
      · have hb' : beats p existing = false := by simpa using hb
        simp only [hb', Bool.false_eq_true, if_false]
        exact ih h

theorem dedupFold_mono {m : List (String × EnhancedProduct)}
    (ps : List EnhancedProduct) (k : String) (v : EnhancedProduct)
    (h : mapGet m k = some v) :
    ∃ v', mapGet (dedupFold m ps) k = some v' ∧ LexLe v v' := by
  induction ps generalizing m v with
  | nil => exact ⟨v, h, lexLe_refl v⟩
  | cons p rest ih =>
    rw [dedupFold_cons]
    cases hget : mapGet m (dedupKey p) with
    | none =>
      have hk : dedupKey p ≠ k := fun he => by rw [he, h] at hget; cases hget
      exact ih v (by rw [mapGet_mapSet_ne m _ _ _ hk]; exact h)
    | some existing =>
      by_cases hb : beats p existing = true
      · simp only [hb, if_true]
        by_cases hk : dedupKey p = k
        · subst hk
          have hve : v = existing := by rw [h] at hget; injection hget
          subst hve
          obtain ⟨v', h1, h2⟩ := ih p (mapGet_mapSet_self m _ p)
          exact ⟨v', h1, lexLe_trans (lexLe_of_beats hb) h2⟩
        · exact ih v (by rw [mapGet_mapSet_ne m _ _ _ hk]; exact h)
      · have hb' : beats p existing = false := by simpa using hb
        simp only [hb', Bool.false_eq_true, if_false]
        exact ih v h

theorem dedupFold_reaches {m : List (String × EnhancedProduct)}
    (ps : List EnhancedProduct) (p : EnhancedProduct) (hp : p ∈ ps) :
    ∃ v', mapGet (dedupFold m ps) (dedupKey p) = some v' ∧ LexLe p v' := by
  induction ps generalizing m with
  | nil => cases hp
  | cons q rest ih =>
    rcases List.mem_cons.mp hp with rfl | hp'
    · rw [dedupFold_cons]
      cases hget : mapGet m (dedupKey p) with
      | none => exact dedupFold_mono rest _ p (mapGet_mapSet_self m _ p)
      | some existing =>
        by_cases hb : beats p existing = true
        · simp only [hb, if_true]
          exact dedupFold_mono rest _ p (mapGet_mapSet_self m _ p)
        · have hb' : beats p existing = false := by simpa using hb
          simp only [hb', Bool.false_eq_true, if_false]
          obtain ⟨v', h1, h2⟩ := dedupFold_mono rest _ existing hget
          exact ⟨v', h1, lexLe_trans (lexLe_of_not_beats hb') h2⟩
    · rw [dedupFold_cons]
      cases hget : mapGet m (dedupKey q) with
      | none => exact ih hp'
      | some existing =>
        by_cases hb : beats q existing = true
        · simp only [hb, if_true]; exact ih hp'
        · have hb' : beats q existing = false := by simpa using hb
          simp only [hb', Bool.false_eq_true, if_false]; exact ih hp'

theorem dedupFold_provenance {m : List (String × EnhancedProduct)}
    (ps : List EnhancedProduct) (e : String × EnhancedProduct)
    (he : e ∈ dedupFold m ps) : e ∈ m ∨ e.2 ∈ ps := by
  induction ps generalizing m with
  | nil => exact Or.inl he
  | cons p rest ih =>
    rw [dedupFold_cons] at he
    cases hget : mapGet m (dedupKey p) with
    | none =>
      rw [hget] at he
      rcases ih he with h | h
      · rcases mem_mapSet m _ p e h with rfl | h'
        · right; simp
        · exact Or.inl h'
      · right; simp [h]
    | some existing =>
      rw [hget] at he
      by_cases hb : beats p existing = true
      · simp only [hb, if_true] at he
        rcases ih he with h | h
        · rcases mem_mapSet m _ p e h with rfl | h'
          · right; simp
          · exact Or.inl h'
        · right; simp [h]
      · have hb' : beats p existing = false := by simpa using hb
        simp only [hb', Bool.false_eq_true, if_false] at he
        rcases ih he with h | h
        · exact Or.inl h
        · right; simp [h]

end ProductAggregationService

open ProductAggregationService in
/-- C1. After `deduplicateProducts`, no two products in the returned set
share the same key (normalized title combined with lowercased brand), and
for every pre-dedup product the surviving product with its key has
maximal confidence, ties broken by the higher deal score. -/
theorem dedup_invariant (products : List EnhancedProduct) :
    (deduplicateProducts products).Pairwise (fun a b => dedupKey a ≠ dedupKey b) ∧
    ∀ p ∈ products, ∃ s, s ∈ deduplicateProducts products ∧ s ∈ products ∧
      dedupKey s = dedupKey p ∧
      (p.confidence < s.confidence ∨
        (p.confidence = s.confidence ∧ dealScoreVal p ≤ dealScoreVal s)) := by
  have hwf : SeenWF (dedupFold [] products) :=
    seenWF_dedupFold ⟨fun e he => absurd he (List.not_mem_nil e), by simp⟩ products
  constructor
  · unfold deduplicateProducts
    have hnd : (List.map Prod.fst (dedupFold [] products)).Pairwise (· ≠ ·) := hwf.2
    rw [List.pairwise_map] at hnd
    rw [List.pairwise_map]
    refine List.Pairwise.imp_of_mem ?_ hnd
    intro a b ha hb hne
    rw [hwf.1 a ha, hwf.1 b hb]
    exact hne
  · intro p hp
    obtain ⟨v', h1, h2⟩ := @dedupFold_reaches [] products p hp
    refine ⟨v', ?_, ?_, ?_, h2⟩
    · exact List.mem_map_of_mem Prod.snd (mapGet_mem _ _ _ h1)
    · rcases @dedupFold_provenance [] products _ (mapGet_mem _ _ _ h1) with h | h
      · cases h
      · exact h
    · exact hwf.1 _ (mapGet_mem _ _ _ h1)

/-! ## MD5 (Node `crypto.createHash('md5')`), over byte lists as Nat -/

/-- UTF-8 encoding of one character (Node hashes strings as UTF-8). -/
def utf8EncodeChar (c : Char) : List Nat :=
  let n := c.toNat
  if n < 128 then [n]
  else if n < 2048 then [192 ||| (n >>> 6), 128 ||| (n &&& 63)]
  else if n < 65536 then
    [224 ||| (n >>> 12), 128 ||| ((n >>> 6) &&& 63), 128 ||| (n &&& 63)]
  else
    [240 ||| (n >>> 18), 128 ||| ((n >>> 12) &&& 63), 128 ||| ((n >>> 6) &&& 63),
      128 ||| (n &&& 63)]

def utf8Bytes (s : String) : List Nat :=
  (s.data.map utf8EncodeChar).flatten

/-- 32-bit left rotation. -/
def rotl32 (x s : Nat) : Nat :=
  ((x <<< s) ||| (x >>> (32 - s))) % 4294967296

structure MD5State where
  a : Nat
  b : Nat
  c : Nat
  d : Nat

/-- The 64 MD5 sine-derived round constants. -/
def md5K : List Nat :=
  [0xd76aa478, 0xe8c7b756, 0x242070db, 0xc1bdceee,
   0xf57c0faf, 0x4787c62a, 0xa8304613, 0xfd469501,
   0x698098d8, 0x8b44f7af, 0xffff5bb1, 0x895cd7be,
   0x6b901122, 0xfd987193, 0xa679438e, 0x49b40821,
   0xf61e2562, 0xc040b340, 0x265e5a51, 0xe9b6c7aa,
   0xd62f105d, 0x02441453, 0xd8a1e681, 0xe7d3fbc8,
   0x21e1cde6, 0xc33707d6, 0xf4d50d87, 0x455a14ed,
   0xa9e3e905, 0xfcefa3f8, 0x676f02d9, 0x8d2a4c8a,
   0xfffa3942, 0x8771f681, 0x6d9d6122, 0xfde5380c,
   0xa4beea44, 0x4bdecfa9, 0xf6bb4b60, 0xbebfbc70,
   0x289b7ec6, 0xeaa127fa, 0xd4ef3085, 0x04881d05,
   0xd9d4d039, 0xe6db99e5, 0x1fa27cf8, 0xc4ac5665,
   0xf4292244, 0x432aff97, 0xab9423a7, 0xfc93a039,
   0x655b59c3, 0x8f0ccc92, 0xffeff47d, 0x85845dd1,
   0x6fa87e4f, 0xfe2ce6e0, 0xa3014314, 0x4e0811a1,
   0xf7537e82, 0xbd3af235, 0x2ad7d2bb, 0xeb86d391]

/-- The per-round rotation amounts. -/
def md5S : List Nat :=
  [7, 12, 17, 22, 7, 12, 17, 22, 7, 12, 17, 22, 7, 12, 17, 22,
   5, 9, 14, 20, 5, 9, 14, 20, 5, 9, 14, 20, 5, 9, 14, 20,
   4, 11, 16, 23, 4, 11, 16, 23, 4, 11, 16, 23, 4, 11, 16, 23,
   6, 10, 15, 21, 6, 10, 15, 21, 6, 10, 15, 21, 6, 10, 15, 21]

/-- One MD5 round on the 16-word chunk `M`. -/
def md5Step (M : List Nat) (st : MD5State) (i : Nat) : MD5State :=
  let f :=
    if i < 16 then (st.b &&& st.c) ||| ((st.b ^^^ 4294967295) &&& st.d)
    else if i < 32 then (st.d &&& st.b) ||| ((st.d ^^^ 4294967295) &&& st.c)
    else if i < 48 then st.b ^^^ st.c ^^^ st.d
    else st.c ^^^ (st.b ||| (st.d ^^^ 4294967295))
  let g :=
    if i < 16 then i
    else if i < 32 then (5 * i + 1) % 16
    else if i < 48 then (3 * i + 5) % 16
    else (7 * i) % 16
  let tmp := (st.a + f + (md5K.drop i).headD 0 + (M.drop g).headD 0) % 4294967296
  ⟨st.d, (st.b + rotl32 tmp ((md5S.drop i).headD 0)) % 4294967296, st.b, st.c⟩

/-- Process one 512-bit chunk. -/
def md5Chunk (st : MD5State) (M : List Nat) : MD5State :=
  let r := (List.range 64).foldl (md5Step M) st
  ⟨(st.a + r.a) % 4294967296, (st.b + r.b) % 4294967296,
   (st.c + r.c) % 4294967296, (st.d + r.d) % 4294967296⟩

def le64Bytes (n : Nat) : List Nat :=
  (List.range 8).map (fun i => (n >>> (8 * i)) &&& 255)

/-- MD5 padding: a 1-bit, zeros to 56 mod 64, then the 64-bit bit-length. -/
def md5Pad (msg : List Nat) : List Nat :=
  let z := (119 - msg.length % 64) % 64
  msg ++ [128] ++ List.replicate z 0 ++
    le64Bytes ((8 * msg.length) % 18446744073709551616)

/-- Split 64 bytes into 16 little-endian 32-bit words. -/
def chunkWords (bytes : List Nat) : List Nat :=
  (List.range 16).map (fun j =>
    (bytes.drop (4 * j)).headD 0 + ((bytes.drop (4 * j + 1)).headD 0) <<< 8 +
      ((bytes.drop (4 * j + 2)).headD 0) <<< 16 +
      ((bytes.drop (4 * j + 3)).headD 0) <<< 24)

/-- The MD5 digest (16 bytes) of a byte list. -/
def md5Bytes (msg : List Nat) : List Nat :=
  let padded := md5Pad msg
  let chunks := (List.range (padded.length / 64)).map
    (fun i => chunkWords ((padded.drop (64 * i)).take 64))
  let st := chunks.foldl md5Chunk ⟨0x67452301, 0xefcdab89, 0x98badcfe, 0x10325476⟩
  (List.range 4).map (fun i => (st.a >>> (8 * i)) &&& 255) ++
    (List.range 4).map (fun i => (st.b >>> (8 * i)) &&& 255) ++
    (List.range 4).map (fun i => (st.c >>> (8 * i)) &&& 255) ++
    (List.range 4).map (fun i => (st.d >>> (8 * i)) &&& 255)

def hexDigitChar (n : Nat) : Char :=
  if n < 10 then Char.ofNat (48 + n) else Char.ofNat (87 + n)

/-- `crypto.createHash('md5').update(s).digest('hex')`. -/
def md5Hex (s : String) : String :=
  String.mk (((md5Bytes (utf8Bytes s)).map
    (fun b => [hexDigitChar (b / 16), hexDigitChar (b % 16)])).flatten)

set_option maxRecDepth 100000 in
example : md5Hex "abc" = "900150983cd24fb0d6963f7d28e17f72" := by decide

/-! ## JSON.stringify, for the values the engine serializes as cache keys

Objects serialize their fields in insertion order, exactly as
`JSON.stringify` does; there is no canonicalization. The decimal
rendering of non-integer numbers is abstracted (it is injective, which is
all that matters here; every number in an actual cache key is an
integer, rendered exactly as JS renders it). String escaping is elided:
no serialized key field contains characters needing escapes. -/

inductive JsonValue where
  | str (s : String)
  | num (q : ℚ)
  | obj (fields : List (String × JsonValue))

def ratRepr (q : ℚ) : String :=
  if q.den = 1 then toString q.num else toString q.num ++ "/" ++ toString q.den

mutual
def jsonStringify : JsonValue → String
  | .str s => "\"" ++ s ++ "\""
  | .num q => ratRepr q
  | .obj fs => "\x7b" ++ jsonFieldsRepr fs ++ "\x7d"
def jsonFieldsRepr : List (String × JsonValue) → String
  | [] => ""
  | [(k, v)] => "\"" ++ k ++ "\":" ++ jsonStringify v
  | (k, v) :: rest => "\"" ++ k ++ "\":" ++ jsonStringify v ++ "," ++ jsonFieldsRepr rest
end

/-! ## cacheService.ts -/

namespace CacheService

/-- Resolved constructor options (`options.ttl || 5*60*1000`,
`options.maxSize || 1000`). -/
structure Config where
  ttl : Nat
  maxSize : Nat

/-- The `CacheService` constructor: `0`/absent options fall back to the
defaults because `||` treats `0` as falsy. -/
def mkConfig (ttlOpt maxSizeOpt : Option Nat) : Config :=
  ⟨match ttlOpt with
    | some t => if t = 0 then 300000 else t
    | none => 300000,
   match maxSizeOpt with
    | some m => if m = 0 then 1000 else m
    | none => 1000⟩

/-- The `key` argument of `get`/`set`/`delete`: `string | object`. -/
inductive KeyInput where
  | str (s : String)
  | obj (j : JsonValue)

/-- The string fed to md5: `typeof input === 'string' ? input : JSON.stringify(input)`. -/
def rawKeyString : KeyInput → String
  | .str s => s
  | .obj j => jsonStringify j

/-- `generateKey` (cacheService.ts lines 25-28). -/
def generateKey (input : KeyInput) : String :=
  md5Hex (rawKeyString input)

structure Entry (α : Type) where
  data : α
  timestamp : Nat
  ttl : Nat

structure State (α : Type) where
  entries : List (String × Entry α)

def emptyState {α : Type} : State α := ⟨[]⟩

/-- `isExpired`: `Date.now() - entry.timestamp > entry.ttl` (Nat
subtraction truncates at zero, matching the JS comparison for clocks that
have not gone backwards past the TTL). -/
def isExpired {α : Type} (now : Nat) (e : Entry α) : Bool :=
  decide (e.ttl < now - e.timestamp)

/-- `evictIfNeeded` (cacheService.ts lines 46-57): when the map has
reached `maxSize`, delete the keys of the oldest
`Math.floor(maxSize * 0.1)` entries (by entry timestamp, stable). -/
def evictIfNeeded {α : Type} (cfg : Config) (c : State α) : State α :=
  if cfg.maxSize ≤ c.entries.length then
    let entriesToRemove := cfg.maxSize / 10
    let sortedEntries :=
      c.entries.mergeSort (fun x y => decide (x.2.timestamp ≤ y.2.timestamp))
    let removedKeys := (sortedEntries.take entriesToRemove).map Prod.fst
    ⟨removedKeys.foldl mapDelete c.entries⟩
  else c

/-- `get` (lines 60-74): an expired entry is deleted on access and
reported absent. Returns the value and the possibly-updated state. -/
def get {α : Type} (cfg : Config) (c : State α) (key : KeyInput) (now : Nat) :
    Option α × State α :=
  let cacheKey := generateKey key
  match mapGet c.entries cacheKey with
  | none => (none, c)
  | some entry =>
    if isExpired now entry then (none, ⟨mapDelete c.entries cacheKey⟩)
    else (some entry.data, c)

/-- `set` (lines 77-90): `ttl || this.defaultTTL`, evict if needed, then
insert with the current timestamp. -/
def set {α : Type} (cfg : Config) (c : State α) (key : KeyInput) (data : α)
    (ttlArg : Option Nat) (now : Nat) : State α :=
  let cacheKey := generateKey key
  let entryTTL :=
    match ttlArg with
    | some t => if t = 0 then cfg.ttl else t
    | none => cfg.ttl
  let c' := evictIfNeeded cfg c
  ⟨mapSet c'.entries cacheKey ⟨data, now, entryTTL⟩⟩

/-- A sequence of `set` calls (key, datum, clock value), oldest first. -/
def applySets {α : Type} (cfg : Config) (ops : List (KeyInput × α × Nat))
    (c : State α) : State α :=
  ops.foldl (fun acc op => set cfg acc op.1 op.2.1 none op.2.2) c

end CacheService

/-- The `searchCache` singleton: `ttl: 10 * 60 * 1000, maxSize: 500`. -/
def searchCacheConfig : CacheService.Config :=
  CacheService.mkConfig (some 600000) (some 500)

/-! ## Lemmas about deletion and eviction -/

theorem mapDelete_sublist {α : Type} (m : List (String × α)) (k : String) :
    List.Sublist (mapDelete m k) m := by
  induction m with
  | nil => simp [mapDelete]
  | cons e rest ih =>
    by_cases h0 : e.1 = k
    · rw [show mapDelete (e :: rest) k = rest from by simp [mapDelete, h0]]
      exact List.sublist_cons_self e rest
    · rw [show mapDelete (e :: rest) k = e :: mapDelete rest k from by
        simp [mapDelete, h0]]
      exact ih.cons₂ e

theorem mapDelete_length_lt {α : Type} (m : List (String × α)) (k : String)
    (h : k ∈ m.map Prod.fst) : (mapDelete m k).length < m.length := by
  induction m with
  | nil => simp at h
  | cons e rest ih =>
    by_cases h0 : e.1 = k
    · rw [show mapDelete (e :: rest) k = rest from by simp [mapDelete, h0]]
      simp
    · rw [show mapDelete (e :: rest) k = e :: mapDelete rest k from by
        simp [mapDelete, h0]]
      simp only [List.map_cons, List.mem_cons] at h
      rcases h with h | h
      · exact absurd h.symm h0
      · simpa using ih h

theorem foldl_mapDelete_sublist {α : Type} (ks : List String)
    (m : List (String × α)) : List.Sublist (ks.foldl mapDelete m) m := by
  induction ks generalizing m with
  | nil => simp
  | cons k0 krest ih =>
    exact (ih (mapDelete m k0)).trans (mapDelete_sublist m k0)

theorem mem_mapDelete_iff {α : Type} {m : List (String × α)}
    (hnd : (m.map Prod.fst).Nodup) (k : String) (e : String × α) :
    e ∈ mapDelete m k ↔ e ∈ m ∧ e.1 ≠ k := by
  induction m with
  | nil => simp [mapDelete]
  | cons e0 rest ih =>
    simp only [List.map_cons, List.nodup_cons] at hnd
    by_cases h0 : e0.1 = k
    · rw [show mapDelete (e0 :: rest) k = rest from by simp [mapDelete, h0]]
      constructor
      · intro hmem
        refine ⟨List.mem_cons_of_mem _ hmem, ?_⟩
        intro hek
        apply hnd.1
        have hm : e.1 ∈ List.map Prod.fst rest := List.mem_map_of_mem Prod.fst hmem
        rwa [hek, ← h0] at hm
      · rintro ⟨hmem, hne⟩
        rcases List.mem_cons.mp hmem with rfl | hmem'
        · exact absurd h0 hne
        · exact hmem'
    · rw [show mapDelete (e0 :: rest) k = e0 :: mapDelete rest k from by
        simp [mapDelete, h0]]
      constructor
      · intro hmem
        rcases List.mem_cons.mp hmem with rfl | hmem'
        · exact ⟨List.mem_cons_self _ _, h0⟩
        · obtain ⟨h1, h2⟩ := (ih hnd.2).mp hmem'
          exact ⟨List.mem_cons_of_mem _ h1, h2⟩
      · rintro ⟨hmem, hne⟩
        rcases List.mem_cons.mp hmem with rfl | hmem'
        · exact List.mem_cons_self _ _
        · exact List.mem_cons_of_mem _ ((ih hnd.2).mpr ⟨hmem', hne⟩)

theorem mem_foldl_mapDelete_iff {α : Type} (ks : List String)
    {m : List (String × α)} (hnd : (m.map Prod.fst).Nodup) (e : String × α) :
    e ∈ ks.foldl mapDelete m ↔ e ∈ m ∧ e.1 ∉ ks := by
  induction ks generalizing m with
  | nil => simp
  | cons k0 krest ih =>
    have hnd' : ((mapDelete m k0).map Prod.fst).Nodup :=
      hnd.sublist ((mapDelete_sublist m k0).map Prod.fst)
    rw [List.foldl_cons, ih hnd', mem_mapDelete_iff hnd k0 e]
    simp only [List.mem_cons, not_or]
    tauto

namespace CacheService

/-- The timestamp comparison used by `evictIfNeeded`. -/
theorem evict_sorted {α : Type} (l : List (String × Entry α)) :
    List.Pairwise (fun x y => x.2.timestamp ≤ y.2.timestamp)
      (l.mergeSort (fun x y => decide (x.2.timestamp ≤ y.2.timestamp))) := by
  have h := @List.sorted_mergeSort (String × Entry α)
    (fun x y => decide (x.2.timestamp ≤ y.2.timestamp))
    (fun a b c hab hbc => by
      simp only [decide_eq_true_eq] at *
      omega)
    (fun a b => by
      simp only [Bool.or_eq_true, decide_eq_true_eq]
      omega) l
  exact h.imp (by simp)

theorem evictIfNeeded_oldest {α : Type} (cfg : Config) (c : State α)
    (hnd : (c.entries.map Prod.fst).Nodup)
    (e : String × Entry α) (he : e ∈ c.entries)
    (hrem : e ∉ (evictIfNeeded cfg c).entries)
    (e' : String × Entry α) (he' : e' ∈ (evictIfNeeded cfg c).entries) :
    e.2.timestamp ≤ e'.2.timestamp := by
  unfold evictIfNeeded at hrem he'
  by_cases hcond : cfg.maxSize ≤ c.entries.length
  · simp only [if_pos hcond] at hrem he'
    set sorted :=
      c.entries.mergeSort (fun x y => decide (x.2.timestamp ≤ y.2.timestamp)) with hsorted
    have hperm : sorted.Perm c.entries := List.mergeSort_perm c.entries _
    -- the removed entry has its key among the removed keys
    have hekey : e.1 ∈ (sorted.take (cfg.maxSize / 10)).map Prod.fst := by
      by_contra hnk
      exact hrem ((mem_foldl_mapDelete_iff _ hnd e).mpr ⟨he, hnk⟩)
    obtain ⟨f, hf1, hf2⟩ := List.mem_map.mp hekey
    have hfm : f ∈ c.entries := hperm.mem_iff.mp (List.mem_of_mem_take hf1)
    have hfe : f = e := List.inj_on_of_nodup_map hnd hfm he hf2
    -- the surviving entry sits in the dropped suffix of the sorted list
    obtain ⟨he'm, he'k⟩ := (mem_foldl_mapDelete_iff _ hnd e').mp he'
    have he'sorted : e' ∈ sorted := hperm.mem_iff.mpr he'm
    have he'drop : e' ∈ sorted.drop (cfg.maxSize / 10) := by
      have h2 : e' ∈ sorted.take (cfg.maxSize / 10) ++ sorted.drop (cfg.maxSize / 10) := by
        rw [List.take_append_drop]
        exact he'sorted
      rcases List.mem_append.mp h2 with h | h
      · exact absurd (List.mem_map_of_mem Prod.fst h) he'k
      · exact h
    have hsort : List.Pairwise (fun x y : String × Entry α => x.2.timestamp ≤ y.2.timestamp)
        (sorted.take (cfg.maxSize / 10) ++ sorted.drop (cfg.maxSize / 10)) := by
      rw [List.take_append_drop]
      exact evict_sorted c.entries
    have := (List.pairwise_append.mp hsort).2.2 f hf1 e' he'drop
    rw [hfe] at this
    exact this
  · simp only [if_neg hcond] at hrem
    exact absurd he hrem

theorem mapSet_length_le {α : Type} (m : List (String × α)) (k : String) (v : α) :
    (mapSet m k v).length ≤ m.length + 1 := by
  induction m with
  | nil => simp [mapSet]
  | cons e rest ih =>
    by_cases h0 : e.1 = k
    · rw [show mapSet (e :: rest) k v = (e.1, v) :: rest from by simp [mapSet, h0]]
      simp
    · rw [show mapSet (e :: rest) k v = e :: mapSet rest k v from by simp [mapSet, h0]]
      simpa using ih

theorem set_length_le {α : Type} (cfg : Config) (h10 : 10 ≤ cfg.maxSize)
    (c : State α) (hlen : c.entries.length ≤ cfg.maxSize)
    (key : KeyInput) (v : α) (ttlArg : Option Nat) (now : Nat) :
    (set cfg c key v ttlArg now).entries.length ≤ cfg.maxSize := by
  unfold set
  refine le_trans (mapSet_length_le _ _ _) ?_
  unfold evictIfNeeded
  by_cases hcond : cfg.maxSize ≤ c.entries.length
  · simp only [if_pos hcond]
    have heq : c.entries.length = cfg.maxSize := le_antisymm hlen hcond
    set sorted :=
      c.entries.mergeSort (fun x y => decide (x.2.timestamp ≤ y.2.timestamp)) with hs
    have hslen : sorted.length = cfg.maxSize := by
      rw [hs, List.length_mergeSort, heq]
    have hk1 : 1 ≤ cfg.maxSize / 10 := (Nat.one_le_div_iff (by omega)).mpr h10
    obtain ⟨f, rest', hcons⟩ : ∃ f rest', sorted = f :: rest' := by
      cases hsc : sorted with
      | nil => rw [hsc] at hslen; simp at hslen; omega
      | cons f rest' => exact ⟨f, rest', rfl⟩
    have hremk : (sorted.take (cfg.maxSize / 10)).map Prod.fst =
        f.1 :: ((rest'.take (cfg.maxSize / 10 - 1)).map Prod.fst) := by
      rw [hcons]
      obtain ⟨j, hj⟩ : ∃ j, cfg.maxSize / 10 = j + 1 := ⟨cfg.maxSize / 10 - 1, by omega⟩
      rw [hj]
      simp
    rw [hremk, List.foldl_cons]
    have hfk : f.1 ∈ c.entries.map Prod.fst := by
      have : f ∈ c.entries := (List.mergeSort_perm c.entries _).mem_iff.mp
        (by rw [← hs, hcons]; exact List.mem_cons_self _ _)
      exact List.mem_map_of_mem Prod.fst this
    have h1 : (mapDelete c.entries f.1).length < c.entries.length :=
      mapDelete_length_lt c.entries f.1 hfk
    have h2 := (foldl_mapDelete_sublist
      ((rest'.take (cfg.maxSize / 10 - 1)).map Prod.fst)
      (mapDelete c.entries f.1)).length_le
    omega
  · simp only [if_neg hcond]
    omega

theorem set_nodup_keys {α : Type} (cfg : Config) (c : State α)
    (hnd : (c.entries.map Prod.fst).Nodup)
    (key : KeyInput) (v : α) (ttlArg : Option Nat) (now : Nat) :
    ((set cfg c key v ttlArg now).entries.map Prod.fst).Nodup := by
  unfold set
  apply nodup_keys_mapSet
  unfold evictIfNeeded
  by_cases hcond : cfg.maxSize ≤ c.entries.length
  · simp only [if_pos hcond]
    exact hnd.sublist ((foldl_mapDelete_sublist _ c.entries).map Prod.fst)
  · simp only [if_neg hcond]
    exact hnd

theorem applySets_invariant {α : Type} (cfg : Config) (h10 : 10 ≤ cfg.maxSize)
    (ops : List (KeyInput × α × Nat)) (c : State α)
    (hlen : c.entries.length ≤ cfg.maxSize)
    (hnd : (c.entries.map Prod.fst).Nodup) :
    (applySets cfg ops c).entries.length ≤ cfg.maxSize ∧
      ((applySets cfg ops c).entries.map Prod.fst).Nodup := by
  induction ops generalizing c with
  | nil => exact ⟨hlen, hnd⟩
  | cons op rest ih =>
    exact ih (set cfg c op.1 op.2.1 none op.2.2)
      (set_length_le cfg h10 c hlen op.1 op.2.1 none op.2.2)
      (set_nodup_keys cfg c hnd op.1 op.2.1 none op.2.2)

end CacheService

/-- C5 counterexample: with `maxSize: 5`, `Math.floor(maxSize * 0.1)` is
zero, so `evictIfNeeded` never removes anything and six inserts leave six
entries in the cache — more than `maxSize`. -/
theorem cache_eviction_counterexample :
    (CacheService.applySets (CacheService.mkConfig none (some 5))
      [(.str "a", (0 : Nat), 0), (.str "b", 0, 1), (.str "c", 0, 2),
       (.str "d", 0, 3), (.str "e", 0, 4), (.str "f", 0, 5)]
      CacheService.emptyState).entries.length = 6 ∧
    ¬ (6 ≤ (CacheService.mkConfig none (some 5)).maxSize) := by
  constructor
  · set_option maxRecDepth 1000000 in decide
  · decide

/-- C5, amended: provided `maxSize ≥ 10` (so that the 10% eviction batch
`Math.floor(maxSize * 0.1)` is at least one entry), any sequence of `set`
calls starting from the empty cache leaves at most `maxSize` entries, the
stored keys stay distinct, and whenever eviction removes entries from a
cache state with distinct keys, every removed entry is at least as old
(by insertion timestamp) as every surviving entry. -/
theorem cache_eviction_bound {α : Type} (cfg : CacheService.Config)
    (h10 : 10 ≤ cfg.maxSize) (ops : List (CacheService.KeyInput × α × Nat)) :
    (CacheService.applySets cfg ops CacheService.emptyState).entries.length ≤ cfg.maxSize ∧
    ((CacheService.applySets cfg ops CacheService.emptyState).entries.map Prod.fst).Nodup ∧
    ∀ c : CacheService.State α, (c.entries.map Prod.fst).Nodup →
      ∀ e ∈ c.entries, e ∉ (CacheService.evictIfNeeded cfg c).entries →
        ∀ e' ∈ (CacheService.evictIfNeeded cfg c).entries,
          e.2.timestamp ≤ e'.2.timestamp := by
  obtain ⟨h1, h2⟩ := CacheService.applySets_invariant cfg h10 ops CacheService.emptyState
    (by simp [CacheService.emptyState]) (by simp [CacheService.emptyState])
  exact ⟨h1, h2, fun c hnd e he hrem e' he' =>
    CacheService.evictIfNeeded_oldest cfg c hnd e he hrem e' he'⟩

theorem cache_eviction_bound_witness :
    (CacheService.applySets (CacheService.mkConfig none (some 10))
        [(.str "w", (0 : Nat), 0)] CacheService.emptyState).entries.length ≤
      (CacheService.mkConfig none (some 10)).maxSize ∧
    ((CacheService.applySets (CacheService.mkConfig none (some 10))
        [(.str "w", (0 : Nat), 0)] CacheService.emptyState).entries.map Prod.fst).Nodup ∧
    ∀ c : CacheService.State Nat, (c.entries.map Prod.fst).Nodup →
      ∀ e ∈ c.entries,
        e ∉ (CacheService.evictIfNeeded (CacheService.mkConfig none (some 10)) c).entries →
        ∀ e' ∈ (CacheService.evictIfNeeded (CacheService.mkConfig none (some 10)) c).entries,
          e.2.timestamp ≤ e'.2.timestamp :=
  cache_eviction_bound (CacheService.mkConfig none (some 10)) (by decide) _

/-- C4 counterexample: two structured keys that are logically identical
(the same field set, permuted) serialize to different JSON strings, get
different md5 digests, and hence address different cache slots: a `get`
on the permuted key misses what was just `set` under the original key. -/
theorem cacheKey_order_counterexample :
    [("a", JsonValue.str "1"), ("b", JsonValue.str "2")].Perm
      [("b", JsonValue.str "2"), ("a", JsonValue.str "1")] ∧
    CacheService.generateKey (.obj (.obj [("a", .str "1"), ("b", .str "2")])) ≠
      CacheService.generateKey (.obj (.obj [("b", .str "2"), ("a", .str "1")])) ∧
    (CacheService.get (CacheService.mkConfig none none)
        (CacheService.set (CacheService.mkConfig none none) CacheService.emptyState
          (.obj (.obj [("a", .str "1"), ("b", .str "2")])) (0 : Nat) none 0)
        (.obj (.obj [("b", .str "2"), ("a", .str "1")])) 0).1 = none := by
  refine ⟨List.Perm.swap _ _ _, ?_, ?_⟩
  · set_option maxRecDepth 1000000 in decide
  · set_option maxRecDepth 1000000 in decide

/-- C4, amended: key derivation hashes the JSON serialization as-is
(property order included). Two structured keys with the same
serialization — same fields in the same insertion order — produce the
same digest and address the same cache slot; logically identical keys in
a different property order do not (see the counterexample). -/
theorem cacheKey_same_serialization (k1 k2 : CacheService.KeyInput)
    (hraw : CacheService.rawKeyString k1 = CacheService.rawKeyString k2)
    {α : Type} (cfg : CacheService.Config) (c : CacheService.State α) (v : α)
    (t1 t2 : Nat) (httl : t2 - t1 ≤ cfg.ttl) :
    CacheService.generateKey k1 = CacheService.generateKey k2 ∧
    (CacheService.get cfg (CacheService.set cfg c k1 v none t1) k2 t2).1 = some v := by
  have hk : CacheService.generateKey k1 = CacheService.generateKey k2 := by
    unfold CacheService.generateKey
    rw [hraw]
  refine ⟨hk, ?_⟩
  unfold CacheService.get CacheService.set
  rw [← hk]
  simp only [mapGet_mapSet_self]
  simp [CacheService.isExpired, Nat.not_lt.mpr httl]

theorem cacheKey_same_serialization_witness :
    CacheService.generateKey (.str "w") = CacheService.generateKey (.str "w") ∧
    (CacheService.get (CacheService.mkConfig none none)
        (CacheService.set (CacheService.mkConfig none none) CacheService.emptyState
          (.str "w") (7 : Nat) none 0) (.str "w") 1).1 = some 7 :=
  cacheKey_same_serialization _ _ rfl (CacheService.mkConfig none none)
    CacheService.emptyState 7 0 1 (by decide)

/-! ## Search request/response model (packages/shared-types/src/api.ts) -/

structure SearchFilters where
  category : Option String
  brand : Option String
  minPrice : Option ℚ
  maxPrice : Option ℚ
  rating : Option ℚ
deriving DecidableEq

structure SearchPagination where
  page : Nat
  limit : Nat
deriving DecidableEq

structure SearchRequest where
  query : String
  filters : Option SearchFilters
  pagination : Option SearchPagination
  sortBy : Option String
deriving DecidableEq

structure ResponsePagination where
  page : Nat
  limit : Nat
  total : Nat
  totalPages : Nat
  hasNext : Bool
  hasPrev : Bool
deriving DecidableEq

structure SearchData where
  items : List EnhancedProduct
  pagination : ResponsePagination
deriving DecidableEq

/-- `SearchResponse` restricted to the fields the search paths produce
(`error`/`message` are never set on these paths). The ISO timestamp
string is modelled by the clock value it renders. -/
structure SearchResponse where
  success : Bool
  data : Option SearchData
  timestamp : Nat
deriving DecidableEq

/-- JS truthiness of an optional string. -/
def truthyStr : Option String → Bool
  | none => false
  | some s => !(s == "")

/-- JS truthiness of an optional number. -/
def truthyNum : Option ℚ → Bool
  | none => false
  | some q => !(q == 0)

/-! ## productAggregationService.ts : filters and ranking -/

namespace ProductAggregationService

/-- The filter predicate of `applyFilters` (lines 137-172), one clause
per early `return false`. A field-absent product fails a set
category/brand filter because `undefined?.toLowerCase().includes(..)`
is falsy. -/
def keepProduct (filters : SearchFilters) (product : EnhancedProduct) : Bool :=
  if truthyStr filters.category &&
      !(match product.category with
        | some c => jsIncludes (jsToLower c) (jsToLower (filters.category.getD ""))
        | none => false) then false
  else if truthyStr filters.brand &&
      !(match product.brand with
        | some b => jsIncludes (jsToLower b) (jsToLower (filters.brand.getD ""))
        | none => false) then false
  else if truthyNum filters.minPrice &&
      decide (product.price < filters.minPrice.getD 0) then false
  else if truthyNum filters.maxPrice &&
      decide (filters.maxPrice.getD 0 < product.price) then false
  else if truthyNum filters.rating &&
      (ratingFalsy product || decide (ratingVal product < filters.rating.getD 0)) then false
  else true

/-- `applyFilters`: `if (!filters) return products`. -/
def applyFilters (products : List EnhancedProduct)
    (filters : Option SearchFilters) : List EnhancedProduct :=
  match filters with
  | none => products
  | some f => products.filter (keepProduct f)

/-- `product.brand?.toLowerCase().includes(queryLower)` as a boolean. -/
def brandMatch (product : EnhancedProduct) (queryLower : String) : Bool :=
  match product.brand with
  | some b => jsIncludes (jsToLower b) queryLower
  | none => false

/-- `product.features?.some(f => f.toLowerCase().includes(queryLower))`. -/
def featuresMatch (product : EnhancedProduct) (queryLower : String) : Bool :=
  match product.features with
  | some fs => fs.any (fun f => jsIncludes (jsToLower f) queryLower)
  | none => false

/-- `calculateRelevanceScore` (lines 235-283). `(confidence || 0) * 10`
equals `confidence * 10` since `0 || 0 = 0`; the `if (product.rating)`
guard is kept (it adds nothing when the rating is 0 or absent). -/
def calculateRelevanceScore (product : EnhancedProduct) (query : String) : ℚ :=
  let queryLower := jsToLower query
  let titleLower := jsToLower product.title
  let descLower := jsToLower product.description
  (if jsIncludes titleLower queryLower then 100 else 0) +
    (if titleLower == queryLower then 200 else 0) +
    (if jsIncludes descLower queryLower then 50 else 0) +
    (if brandMatch product queryLower then 75 else 0) +
    (if featuresMatch product queryLower then 25 else 0) +
    product.confidence * 10 + dealScoreVal product * (1 / 2) +
    (if ratingFalsy product then 0 else ratingVal product * 10) +
    (if product.availability == "in_stock" then 20 else 0)

/-- The comparator of the aggregation-level `sortProducts`
(lines 208-233), as the "a stays before b" predicate of a stable sort:
`le a b` iff `comparator(a, b) ≤ 0`. -/
def aggSortLe (sortBy : String) (query : String) (a b : EnhancedProduct) : Bool :=
  match sortBy with
  | "price" => decide (a.price ≤ b.price)
  | "rating" => decide (ratingVal b ≤ ratingVal a)
  | "deal_score" => decide (dealScoreVal b ≤ dealScoreVal a)
  | _ => decide (calculateRelevanceScore b query ≤ calculateRelevanceScore a query)

/-- `sortProducts` of the aggregation service. -/
def sortProducts (products : List EnhancedProduct) (sortBy : String)
    (query : String) : List EnhancedProduct :=
  products.mergeSort (aggSortLe sortBy query)

end ProductAggregationService

/-! ## Collaborator outcomes for one request -/

structure VectorSearchResult where
  productId : String
  score : ℚ
deriving DecidableEq

/-- The behaviour of the external collaborators and the static catalog
during one request: what each source adapter call and the vector
backend call would return (or throw), and the content of
`mockProducts`. -/
structure SearchEnv where
  amazonResult : Except Unit (List EnhancedProduct)
  bestBuyResult : Except Unit (List EnhancedProduct)
  vectorResult : Except Unit (List VectorSearchResult)
  mockCatalog : List EnhancedProduct

/-- A `.catch(() => [])`-wrapped adapter call: a thrown error becomes an
empty contribution. -/
def adapterResults (r : Except Unit (List EnhancedProduct)) : List EnhancedProduct :=
  match r with
  | .ok rs => rs
  | .error _ => []

/-- Modelled from the spec: `searchMockProducts` lives in
apps/api/src/data/mockProducts.ts, which is absent from the repository
snapshot (only its callers are present). Per §4.2 the static-catalog
adapter accepts a query and returns a best-effort list from the
in-memory catalog: case-insensitive match on title, description,
category or brand, capped at `maxResults`. -/
def searchMockProducts (catalog : List EnhancedProduct) (query : String)
    (maxResults : Nat) : List EnhancedProduct :=
  (catalog.filter (fun p =>
    jsIncludes (jsToLower p.title) (jsToLower query) ||
    jsIncludes (jsToLower p.description) (jsToLower query) ||
    (match p.category with
     | some c => jsIncludes (jsToLower c) (jsToLower query)
     | none => false) ||
    (match p.brand with
     | some b => jsIncludes (jsToLower b) (jsToLower query)
     | none => false))).take maxResults

namespace ProductAggregationService

structure AggregationOptions where
  sources : List String
  maxResultsPerSource : Nat
  enableDeduplication : Bool
  sortBy : String

/-- `aggregateSearchResults` (lines 24-118): fan out to the enabled
sources (a failed adapter contributes `[]` via its `.catch`), flatten in
push order (amazon, bestbuy, mock), filter, deduplicate, sort. The
price/brand hints passed to the adapters are absorbed into the
environment's per-request adapter outcome. -/
def aggregateSearchResults (env : SearchEnv) (req : SearchRequest)
    (options : AggregationOptions) : List EnhancedProduct :=
  let amazonResults :=
    if options.sources.contains "amazon" then adapterResults env.amazonResult else []
  let bestBuyResults :=
    if options.sources.contains "bestbuy" then adapterResults env.bestBuyResult else []
  let mockResults :=
    if options.sources.contains "mock" then
      searchMockProducts env.mockCatalog req.query options.maxResultsPerSource
    else []
  let allResults := amazonResults ++ bestBuyResults ++ mockResults
  let filteredResults := applyFilters allResults req.filters
  let deduped :=
    if options.enableDeduplication then deduplicateProducts filteredResults
    else filteredResults
  sortProducts deduped options.sortBy req.query

end ProductAggregationService

/-! ## searchService.ts -/

namespace SearchService

/-- The private `sortProducts` of SearchService (lines 264-278), as a
stable sort keyed by the comparator; `newest` keeps the current order. -/
def sortProducts (products : List EnhancedProduct) (sortBy : String) :
    List EnhancedProduct :=
  match sortBy with
  | "price_low" => products.mergeSort (fun a b => decide (a.price ≤ b.price))
  | "price_high" => products.mergeSort (fun a b => decide (b.price ≤ a.price))
  | "rating" => products.mergeSort (fun a b => decide (ratingVal b ≤ ratingVal a))
  | "newest" => products
  | _ => products.mergeSort (fun a b => decide (b.confidence ≤ a.confidence))

/-- `getProductsByIds` (lines 260-262): `mockProducts.filter(p => ids.includes(p.id))` —
catalog order, dropping unknown ids. -/
def getProductsByIds (catalog : List EnhancedProduct) (ids : List String) :
    List EnhancedProduct :=
  catalog.filter (fun p => ids.contains p.id)

/-- The vector-supplement merge of `searchProducts` (lines 65-72): resolve
the hit ids, then tag by position — `vectorResults[index]?.score || 0`. -/
def vectorEnhancedProducts (catalog : List EnhancedProduct)
    (vectorResults : List VectorSearchResult) : List EnhancedProduct :=
  let productIds := vectorResults.map (fun r => r.productId)
  let vectorProducts := getProductsByIds catalog productIds
  vectorProducts.mapIdx (fun index product =>
    { product with confidence := ((vectorResults[index]?).map (fun r => r.score)).getD 0 })

/-- The result-computation pipeline of `searchProducts` on a cache miss
(lines 46-81): aggregate over `['bestbuy', 'mock']` with
`maxResultsPerSource: 20` and dedup on, supplement with vector results
when fewer than 3 came back (a vector failure is swallowed), then apply
the service-level sort. -/
def computeSearchResults (env : SearchEnv) (req : SearchRequest)
    (sortBy : String) : List EnhancedProduct :=
  let aggResults := ProductAggregationService.aggregateSearchResults env req
    ⟨["bestbuy", "mock"], 20, true, sortBy⟩
  let results :=
    if aggResults.length < 3 then
      match env.vectorResult with
      | .ok vectorResults =>
        aggResults ++ vectorEnhancedProducts env.mockCatalog vectorResults
      | .error _ => aggResults
    else aggResults
  sortProducts results sortBy

/-- The cache-key object of `searchProducts` (lines 27-33): property
insertion order query, filters, sortBy, page, limit; `filters || {}`;
absent filter fields are omitted by `JSON.stringify`. -/
def filtersJson (filters : Option SearchFilters) : JsonValue :=
  match filters with
  | none => .obj []
  | some f =>
    .obj ((match f.category with
            | some c => [("category", JsonValue.str c)]
            | none => []) ++
          (match f.minPrice with
            | some q => [("minPrice", JsonValue.num q)]
            | none => []) ++
          (match f.maxPrice with
            | some q => [("maxPrice", JsonValue.num q)]
            | none => []) ++
          (match f.brand with
            | some b => [("brand", JsonValue.str b)]
            | none => []) ++
          (match f.rating with
            | some q => [("rating", JsonValue.num q)]
            | none => []))

def searchCacheKey (req : SearchRequest) : CacheService.KeyInput :=
  .obj (.obj
    [("query", .str req.query),
     ("filters", filtersJson req.filters),
     ("sortBy", .str (req.sortBy.getD "relevance")),
     ("page", .num ((req.pagination.getD ⟨1, 20⟩).page : ℚ)),
     ("limit", .num ((req.pagination.getD ⟨1, 20⟩).limit : ℚ))])

/-- `searchProducts` (lines 18-115). On a cache hit, the cached response
is returned with a refreshed timestamp. On a miss the pipeline runs,
the page is sliced out (`Math.ceil(total / limit)` is `⌈total/limit⌉`,
embedded as `(total + limit - 1) / limit` for `limit ≥ 1`;
`offset = (page - 1) * limit`), and the response is cached. The
embedded pipeline is total, so the catch-all mock fallback
(lines 109-114) is unreachable here: adapter and vector failures are
already absorbed upstream by their own handlers. -/
def searchProducts (env : SearchEnv) (cache : CacheService.State SearchResponse)
    (req : SearchRequest) (now : Nat) :
    SearchResponse × CacheService.State SearchResponse :=
  match CacheService.get searchCacheConfig cache (searchCacheKey req) now with
  | (some cachedResult, cache') => ({ cachedResult with timestamp := now }, cache')
  | (none, cache') =>
    let pagination := req.pagination.getD ⟨1, 20⟩
    let sortBy := req.sortBy.getD "relevance"
    let results := computeSearchResults env req sortBy
    let total := results.length
    let totalPages := (total + pagination.limit - 1) / pagination.limit
    let offset := (pagination.page - 1) * pagination.limit
    let paginatedResults := (results.drop offset).take pagination.limit
    let response : SearchResponse :=
      { success := true,
        data := some
          { items := paginatedResults,
            pagination :=
              { page := pagination.page, limit := pagination.limit, total := total,
                totalPages := totalPages,
                hasNext := decide (pagination.page < totalPages),
                hasPrev := decide (1 < pagination.page) } },
        timestamp := now }
    (response, CacheService.set searchCacheConfig cache' (searchCacheKey req) response none now)

/-- The sequential filter chain of `searchProductsWithMock`
(lines 128-153); each clause applies only when its filter value is
truthy. -/
def mockFilter (results : List EnhancedProduct)
    (filters : Option SearchFilters) : List EnhancedProduct :=
  match filters with
  | none => results
  | some f =>
    let r1 :=
      if truthyStr f.category then
        results.filter (fun p =>
          match p.category with
          | some c => jsIncludes (jsToLower c) (jsToLower (f.category.getD ""))
          | none => false)
      else results
    let r2 :=
      if truthyStr f.brand then
        r1.filter (fun p =>
          match p.brand with
          | some b => jsIncludes (jsToLower b) (jsToLower (f.brand.getD ""))
          | none => false)
      else r1
    let r3 :=
      if truthyNum f.minPrice then
        r2.filter (fun p => decide (f.minPrice.getD 0 ≤ p.price))
      else r2
    let r4 :=
      if truthyNum f.maxPrice then
        r3.filter (fun p => decide (p.price ≤ f.maxPrice.getD 0))
      else r3
    if truthyNum f.rating then
      r4.filter (fun p => decide (f.rating.getD 0 ≤ ratingVal p))
    else r4

/-- `searchProductsWithMock` (lines 117-179): static catalog only,
filter, sort, paginate; no cache write. -/
def searchProductsWithMock (env : SearchEnv) (req : SearchRequest)
    (now : Nat) : SearchResponse :=
  let pagination := req.pagination.getD ⟨1, 20⟩
  let sortBy := req.sortBy.getD "relevance"
  let results := sortProducts (mockFilter
    (searchMockProducts env.mockCatalog req.query 100) req.filters) sortBy
  let total := results.length
  let totalPages := (total + pagination.limit - 1) / pagination.limit
  let offset := (pagination.page - 1) * pagination.limit
  let paginatedResults := (results.drop offset).take pagination.limit
  { success := true,
    data := some
      { items := paginatedResults,
        pagination :=
          { page := pagination.page, limit := pagination.limit, total := total,
            totalPages := totalPages,
            hasNext := decide (pagination.page < totalPages),
            hasPrev := decide (1 < pagination.page) } },
    timestamp := now }

end SearchService

/-! ## Request validation and the search router

The POST route validates the body against `SearchRequestSchema`
(packages/shared-types/src/api.ts lines 62-80); the GET route
(searchRouter.get) builds a request from query parameters with
`parseInt` and no range checks. Only the constraints relevant to the
pagination claims are modelled in full: `query: min(1)`,
`page: min(1).default(1)`, `limit: min(1).max(100).default(20)` and the
`sortBy` enum; the filter-field bounds are passed through unchecked. -/

structure RawPagination where
  page : Option Int
  limit : Option Int

structure RawSearchRequest where
  query : String
  filters : Option SearchFilters
  pagination : Option RawPagination
  sortBy : Option String

namespace SearchRoutes

/-- zod check of `page: z.number().min(1).default(1)`: an absent value
gets the default, a provided value must satisfy its bound. -/
def validatePage : Option Int → Option Nat
  | none => some 1
  | some p => if 1 ≤ p then some p.toNat else none

/-- zod check of `limit: z.number().min(1).max(100).default(20)`. -/
def validateLimit : Option Int → Option Nat
  | none => some 20
  | some l => if 1 ≤ l ∧ l ≤ 100 then some l.toNat else none

/-- zod validation of the `pagination` sub-object. -/
def validatePagination (raw : Option RawPagination) : Option (Option SearchPagination) :=
  match raw with
  | none => some none
  | some rp =>
    match validatePage rp.page, validateLimit rp.limit with
    | some page, some limit => some (some ⟨page, limit⟩)
    | _, _ => none

def sortByValues : List String :=
  ["relevance", "price_low", "price_high", "rating", "newest"]

def validateSortBy (raw : Option String) : Option String :=
  match raw with
  | none => some "relevance"
  | some s => if sortByValues.contains s then some s else none

/-- `SearchRequestSchema.safeParse` on the POST body: `none` is a 400
\"Invalid search request\". -/
def parseSearchRequest (raw : RawSearchRequest) : Option SearchRequest :=
  if raw.query.length < 1 then none
  else
    match validatePagination raw.pagination, validateSortBy raw.sortBy with
    | some pg, some sb => some ⟨raw.query, raw.filters, pg, some sb⟩
    | _, _ => none

/-- `parseInt(s, 10)` restricted to plain decimal-digit strings (the only
inputs the claims exercise); `none` stands for NaN. -/
def parseDecimal (s : String) : Option Nat :=
  if s.data ≠ [] ∧ s.data.all Char.isDigit then
    some (s.data.foldl (fun acc c => 10 * acc + (c.toNat - 48)) 0)
  else none

/-- The GET route (searchRouter.get): defaults `page = '1'`,
`limit = '20'`, `sort = 'relevance'`, `parseInt` on page and limit, no
validation of their range; an absent/empty `q` is a 400. -/
def getRouteRequest (q : String) (pageParam limitParam sortParam : Option String) :
    Option SearchRequest :=
  if q == "" then none
  else
    match parseDecimal (pageParam.getD "1"), parseDecimal (limitParam.getD "20") with
    | some page, some limit =>
      some ⟨q, none, some ⟨page, limit⟩, some (sortParam.getD "relevance")⟩
    | _, _ => none

end SearchRoutes

/-! ## Membership lemmas along the pipeline -/

theorem mem_searchMockProducts {catalog : List EnhancedProduct} {query : String}
    {maxResults : Nat} {p : EnhancedProduct}
    (h : p ∈ searchMockProducts catalog query maxResults) : p ∈ catalog := by
  unfold searchMockProducts at h
  exact List.mem_of_mem_filter (List.mem_of_mem_take h)

theorem deduplicateProducts_subset {ps : List EnhancedProduct} {p : EnhancedProduct}
    (h : p ∈ ProductAggregationService.deduplicateProducts ps) : p ∈ ps := by
  unfold ProductAggregationService.deduplicateProducts at h
  obtain ⟨e, he, rfl⟩ := List.mem_map.mp h
  rcases @ProductAggregationService.dedupFold_provenance [] ps e he with h' | h'
  · cases h'
  · exact h'

theorem mem_applyFilters {ps : List EnhancedProduct} {f : Option SearchFilters}
    {p : EnhancedProduct} (h : p ∈ ProductAggregationService.applyFilters ps f) :
    p ∈ ps := by
  unfold ProductAggregationService.applyFilters at h
  cases f with
  | none => exact h
  | some f => exact List.mem_of_mem_filter h

theorem mem_aggSortProducts {ps : List EnhancedProduct} {sortBy query : String}
    {p : EnhancedProduct}
    (h : p ∈ ProductAggregationService.sortProducts ps sortBy query) : p ∈ ps :=
  (List.mergeSort_perm ps _).mem_iff.mp h

theorem mem_serviceSortProducts {ps : List EnhancedProduct} {sortBy : String}
    {p : EnhancedProduct} (h : p ∈ SearchService.sortProducts ps sortBy) : p ∈ ps := by
  unfold SearchService.sortProducts at h
  split at h
  · exact (List.mergeSort_perm ps _).mem_iff.mp h
  · exact (List.mergeSort_perm ps _).mem_iff.mp h
  · exact (List.mergeSort_perm ps _).mem_iff.mp h
  · exact h
  · exact (List.mergeSort_perm ps _).mem_iff.mp h

theorem serviceSortProducts_length (ps : List EnhancedProduct) (sortBy : String) :
    (SearchService.sortProducts ps sortBy).length = ps.length := by
  unfold SearchService.sortProducts
  split
  · exact List.length_mergeSort ps
  · exact List.length_mergeSort ps
  · exact List.length_mergeSort ps
  · rfl
  · exact List.length_mergeSort ps

theorem aggregate_bestbuy_mock_eq (env : SearchEnv) (req : SearchRequest)
    (sortBy : String) (hbb : env.bestBuyResult = .error ()) :
    ProductAggregationService.aggregateSearchResults env req
      ⟨["bestbuy", "mock"], 20, true, sortBy⟩ =
      ProductAggregationService.sortProducts
        (ProductAggregationService.deduplicateProducts
          (ProductAggregationService.applyFilters
            ([] ++ ([] ++ searchMockProducts env.mockCatalog req.query 20))
            req.filters)) sortBy req.query := by
  unfold ProductAggregationService.aggregateSearchResults
  rw [hbb]
  rfl

theorem mem_computeSearchResults {env : SearchEnv} {req : SearchRequest}
    {sortBy : String} {p : EnhancedProduct}
    (hbb : env.bestBuyResult = .error ()) (hvec : env.vectorResult = .error ())
    (h : p ∈ SearchService.computeSearchResults env req sortBy) :
    p ∈ env.mockCatalog := by
  unfold SearchService.computeSearchResults at h
  have h1 := mem_serviceSortProducts h
  rw [hvec] at h1
  have h2 : p ∈ ProductAggregationService.aggregateSearchResults env req
      ⟨["bestbuy", "mock"], 20, true, sortBy⟩ := by
    by_cases hlen : (ProductAggregationService.aggregateSearchResults env req
        ⟨["bestbuy", "mock"], 20, true, sortBy⟩).length < 3
    · simpa [hlen] using h1
    · simpa [hlen] using h1
  rw [aggregate_bestbuy_mock_eq env req sortBy hbb] at h2
  have h3 := mem_applyFilters
    (deduplicateProducts_subset (mem_aggSortProducts h2))
  rcases List.mem_append.mp h3 with h4 | h4
  · cases h4
  · rcases List.mem_append.mp h4 with h5 | h5
    · cases h5
    · exact mem_searchMockProducts h5

/-- `Math.ceil(total / limit)` for naturals with `limit ≥ 1`. -/
theorem natCeilDiv_eq (a b : Nat) (h : 1 ≤ b) :
    (a + b - 1) / b = ⌈(a : ℚ) / (b : ℚ)⌉₊ := by
  rw [← Nat.ceilDiv_eq_add_pred_div]
  have hb : (0 : ℚ) < b := by positivity
  apply Nat.le_antisymm
  · rw [ceilDiv_le_iff_le_smul h, smul_eq_mul]
    have h2 : (a : ℚ) / b ≤ (⌈(a : ℚ) / (b : ℚ)⌉₊ : ℚ) := Nat.le_ceil _
    rw [div_le_iff₀ hb] at h2
    have h2' : (a : ℚ) ≤ ((b * ⌈(a : ℚ) / (b : ℚ)⌉₊ : ℕ) : ℚ) := by push_cast; linarith
    exact_mod_cast h2'
  · rw [Nat.ceil_le, div_le_iff₀ hb]
    have h3 := (ceilDiv_le_iff_le_smul h).mp (le_refl (a ⌈/⌉ b))
    rw [smul_eq_mul] at h3
    have h3' : ((a : ℕ) : ℚ) ≤ ((b * (a ⌈/⌉ b) : ℕ) : ℚ) := by exact_mod_cast h3
    push_cast at h3'
    linarith

/-- C3. On every computed search response (`page ≥ 1`, `limit ≥ 1`,
cache miss): `total` is the size of the full merged/deduplicated/
filtered/sorted set, `totalPages = ⌈total/limit⌉`, the page is the slice
at offset `(page-1)·limit`, `hasNext = page < totalPages`,
`hasPrev = page > 1`, and at most `limit` items are returned. -/
theorem pagination_correct (env : SearchEnv) (cache : CacheService.State SearchResponse)
    (req : SearchRequest) (now : Nat) (page limit : Nat)
    (hpag : req.pagination = some ⟨page, limit⟩)
    (hpage : 1 ≤ page) (hlimit : 1 ≤ limit)
    (hmiss : (CacheService.get searchCacheConfig cache
      (SearchService.searchCacheKey req) now).1 = none) :
    ∃ d, (SearchService.searchProducts env cache req now).1.data = some d ∧
      d.pagination.total =
        (SearchService.computeSearchResults env req (req.sortBy.getD "relevance")).length ∧
      d.pagination.totalPages = ⌈(d.pagination.total : ℚ) / (limit : ℚ)⌉₊ ∧
      d.items = ((SearchService.computeSearchResults env req
        (req.sortBy.getD "relevance")).drop ((page - 1) * limit)).take limit ∧
      d.pagination.hasNext = decide (page < d.pagination.totalPages) ∧
      d.pagination.hasPrev = decide (1 < page) ∧
      d.items.length ≤ limit := by
  rcases hg : CacheService.get searchCacheConfig cache
    (SearchService.searchCacheKey req) now with ⟨o, cache'⟩
  rw [hg] at hmiss
  have ho : o = none := hmiss
  subst ho
  unfold SearchService.searchProducts
  rw [hg]
  simp only [hpag, Option.getD_some]
  refine ⟨_, rfl, rfl, ?_, rfl, rfl, rfl, ?_⟩
  · exact natCeilDiv_eq _ limit hlimit
  · simpa using le_trans (le_of_eq (List.length_take _ _)) (min_le_left _ _)

/-- C2. If the Best Buy adapter throws and the vector backend throws, a
fresh search request (cache miss) still returns `success: true` and
every returned item comes from the static catalog. -/
theorem fallback_static_catalog (env : SearchEnv)
    (cache : CacheService.State SearchResponse) (req : SearchRequest) (now : Nat)
    (hbb : env.bestBuyResult = .error ())
    (hvec : env.vectorResult = .error ())
    (hmiss : (CacheService.get searchCacheConfig cache
      (SearchService.searchCacheKey req) now).1 = none) :
    (SearchService.searchProducts env cache req now).1.success = true ∧
    ∃ d, (SearchService.searchProducts env cache req now).1.data = some d ∧
      ∀ p ∈ d.items, p ∈ env.mockCatalog := by
  rcases hg : CacheService.get searchCacheConfig cache
    (SearchService.searchCacheKey req) now with ⟨o, cache'⟩
  rw [hg] at hmiss
  have ho : o = none := hmiss
  subst ho
  unfold SearchService.searchProducts
  rw [hg]
  refine ⟨rfl, _, rfl, ?_⟩
  intro p hp
  exact mem_computeSearchResults hbb hvec
    (List.mem_of_mem_drop (List.mem_of_mem_take hp))

/-! ## C7: exact title match ranks before substring match -/

theorem charsStartWith_self (l : List Char) : charsStartWith l l = true := by
  induction l with
  | nil => rfl
  | cons c cs ih => simp [charsStartWith, ih]

theorem jsIncludes_self (s : String) : jsIncludes s s = true := by
  unfold jsIncludes
  cases hs : s.data with
  | nil => rfl
  | cons c cs =>
    unfold charsContain
    rw [← hs, charsStartWith_self]
    simp

theorem mergeSort_pair {α : Type} (le : α → α → Bool) (a b : α) :
    [a, b].mergeSort le = if le a b then [a, b] else [b, a] := by
  simp [List.mergeSort, List.splitInTwo, List.splitAt, List.splitAt.go, List.merge]

open ProductAggregationService in
/-- Under the stated equalities of every other relevance factor, the
exact-title product scores exactly 200 above the substring product. -/
theorem relevance_score_gap (query : String) (a b : EnhancedProduct)
    (h1 : jsToLower a.title = jsToLower query)
    (h2 : jsIncludes (jsToLower b.title) (jsToLower query) = true)
    (h3 : jsToLower b.title ≠ jsToLower query)
    (h4 : a.confidence = b.confidence)
    (h5 : a.dealScore = b.dealScore)
    (h6 : a.rating = b.rating)
    (h7 : a.availability = b.availability)
    (h8 : brandMatch a (jsToLower query) = brandMatch b (jsToLower query))
    (h9 : jsIncludes (jsToLower a.description) (jsToLower query) =
      jsIncludes (jsToLower b.description) (jsToLower query))
    (h10 : featuresMatch a (jsToLower query) = featuresMatch b (jsToLower query)) :
    calculateRelevanceScore a query = calculateRelevanceScore b query + 200 := by
  simp only [calculateRelevanceScore, dealScoreVal, ratingVal, ratingFalsy]
  rw [h1, h4, h5, h6, h7, h8, h9, h10]
  rw [jsIncludes_self, h2]
  have hbeq1 : (jsToLower query == jsToLower query) = true := by simp
  have hbeq2 : (jsToLower b.title == jsToLower query) = false := by
    simp [h3]
  rw [hbeq1, hbeq2]
  simp only [if_true, Bool.false_eq_true, if_false]
  ring

open ProductAggregationService in
/-- C7. Two candidates equal in every relevance factor except that one
title equals the query exactly while the other only contains it: after
the aggregation relevance sort followed by the service-level relevance
re-sort (the pipeline a search response goes through under
`sortBy = relevance`), the exact match is ordered first, whatever order
the two arrived in. -/
theorem relevance_exact_before_substring (query : String) (a b : EnhancedProduct)
    (h1 : jsToLower a.title = jsToLower query)
    (h2 : jsIncludes (jsToLower b.title) (jsToLower query) = true)
    (h3 : jsToLower b.title ≠ jsToLower query)
    (h4 : a.confidence = b.confidence)
    (h5 : a.dealScore = b.dealScore)
    (h6 : a.rating = b.rating)
    (h7 : a.availability = b.availability)
    (h8 : brandMatch a (jsToLower query) = brandMatch b (jsToLower query))
    (h9 : jsIncludes (jsToLower a.description) (jsToLower query) =
      jsIncludes (jsToLower b.description) (jsToLower query))
    (h10 : featuresMatch a (jsToLower query) = featuresMatch b (jsToLower query)) :
    SearchService.sortProducts
      (ProductAggregationService.sortProducts [a, b] "relevance" query) "relevance" =
      [a, b] ∧
    SearchService.sortProducts
      (ProductAggregationService.sortProducts [b, a] "relevance" query) "relevance" =
      [a, b] := by
  have hgap := relevance_score_gap query a b h1 h2 h3 h4 h5 h6 h7 h8 h9 h10
  have hab : aggSortLe "relevance" query a b = true := by
    show decide (calculateRelevanceScore b query ≤ calculateRelevanceScore a query) = true
    rw [decide_eq_true_eq, hgap]
    linarith
  have hba : aggSortLe "relevance" query b a = false := by
    show decide (calculateRelevanceScore a query ≤ calculateRelevanceScore b query) = false
    rw [decide_eq_false_iff_not, hgap]
    intro hle
    linarith
  have hsvc : decide (b.confidence ≤ a.confidence) = true := by
    simp [h4]
  have hagg1 : ProductAggregationService.sortProducts [a, b] "relevance" query
      = [a, b] := by
    unfold ProductAggregationService.sortProducts
    rw [mergeSort_pair, hab]
    simp
  have hagg2 : ProductAggregationService.sortProducts [b, a] "relevance" query
      = [a, b] := by
    unfold ProductAggregationService.sortProducts
    rw [mergeSort_pair, hba]
    simp
  have hfinal : SearchService.sortProducts [a, b] "relevance" = [a, b] := by
    show [a, b].mergeSort (fun x y : EnhancedProduct =>
      decide (y.confidence ≤ x.confidence)) = [a, b]
    rw [mergeSort_pair, hsvc]
    simp
  exact ⟨by rw [hagg1, hfinal], by rw [hagg2, hfinal]⟩

/-! ## C9: cache idempotence of searchProducts -/

theorem get_after_set {α : Type} (cfg : CacheService.Config) (c : CacheService.State α)
    (key : CacheService.KeyInput) (v : α) (t1 t2 : Nat) (h : t2 - t1 ≤ cfg.ttl) :
    CacheService.get cfg (CacheService.set cfg c key v none t1) key t2 =
      (some v, CacheService.set cfg c key v none t1) := by
  unfold CacheService.get CacheService.set
  simp only [mapGet_mapSet_self]
  rw [if_neg]
  simp only [CacheService.isExpired, decide_eq_true_eq, not_lt]
  exact h

/-- C9. If a request misses the cache at time `t1`, issuing the same
request again at `t2` within the TTL window returns exactly the first
response with only the timestamp refreshed to `t2`. -/
theorem cache_idempotent (env : SearchEnv) (cache : CacheService.State SearchResponse)
    (req : SearchRequest) (t1 t2 : Nat)
    (hmiss : (CacheService.get searchCacheConfig cache
      (SearchService.searchCacheKey req) t1).1 = none)
    (httl : t2 - t1 ≤ searchCacheConfig.ttl) :
    (SearchService.searchProducts env
      (SearchService.searchProducts env cache req t1).2 req t2).1 =
      { (SearchService.searchProducts env cache req t1).1 with timestamp := t2 } := by
  rcases hg : CacheService.get searchCacheConfig cache
    (SearchService.searchCacheKey req) t1 with ⟨o, cache'⟩
  rw [hg] at hmiss
  have ho : o = none := hmiss
  subst ho
  have hpair : (SearchService.searchProducts env cache req t1).2 =
      CacheService.set searchCacheConfig cache' (SearchService.searchCacheKey req)
        (SearchService.searchProducts env cache req t1).1 none t1 := by
    unfold SearchService.searchProducts
    rw [hg]
  set r1 := (SearchService.searchProducts env cache req t1).1 with hr1
  rw [hpair]
  unfold SearchService.searchProducts
  rw [get_after_set searchCacheConfig cache' (SearchService.searchCacheKey req)
    r1 t1 t2 httl]

/-! ## Concrete sample data for witnesses and counterexamples -/

def laptopPro : EnhancedProduct :=
  ⟨"m1", "Laptop Pro", "A powerful laptop", 999, some "Lapco", some "Computers",
   some 4, "in_stock", none, 1, some 80⟩

def laptopAir : EnhancedProduct :=
  ⟨"m2", "Laptop Air", "A light laptop", 799, some "Lapco", some "Computers",
   some 4, "in_stock", none, 1, some 80⟩

/-- A second listing of `laptopPro` (same normalized title and brand,
lower confidence). -/
def laptopProDup : EnhancedProduct :=
  ⟨"m3", "Laptop  Pro!", "Another listing", 950, some "LAPCO", some "Computers",
   some 4, "in_stock", none, 0, some 10⟩

def laptopProMax : EnhancedProduct :=
  ⟨"m4", "Laptop Pro Max", "A bigger laptop", 1199, some "Lapco", some "Computers",
   some 4, "in_stock", none, 1, some 80⟩

def laptopNoRating : EnhancedProduct :=
  ⟨"m5", "Laptop Basic", "A basic laptop", 499, some "Lapco", some "Computers",
   none, "in_stock", none, 1, some 20⟩

/-- An environment where every live source and the vector backend throw
and the static catalog is empty. -/
def emptySearchEnv : SearchEnv := ⟨.error (), .error (), .error (), []⟩

/-! ## C10: the minimum-rating filter -/

open ProductAggregationService SearchService in
/-- C10. With a minimum-rating filter `r > 0`, a product whose rating is
absent is excluded by the aggregation filter and by the mock-path
filter; a filter `r = 0` is falsy and filters nothing (both paths
behave as if the rating filter were absent). -/
theorem min_rating_filter (f : SearchFilters) (ps : List EnhancedProduct)
    (p : EnhancedProduct) :
    (∀ r : ℚ, f.rating = some r → 0 < r → p.rating = none →
      p ∉ applyFilters ps (some f) ∧ p ∉ mockFilter ps (some f)) ∧
    (applyFilters ps (some { f with rating := some 0 }) =
        applyFilters ps (some { f with rating := none }) ∧
      mockFilter ps (some { f with rating := some 0 }) =
        mockFilter ps (some { f with rating := none })) := by
  constructor
  · intro r hr hr0 hrnone
    have hrne : r ≠ 0 := ne_of_gt hr0
    have htr : truthyNum f.rating = true := by
      rw [hr]; simp [truthyNum, hrne]
    constructor
    · have hkeep : keepProduct f p = false := by
        have hcond : (truthyNum f.rating &&
            (ratingFalsy p || decide (ratingVal p < f.rating.getD 0))) = true := by
          rw [htr]
          simp [ratingFalsy, hrnone]
        unfold keepProduct
        split_ifs <;> simp_all
      intro hmem
      simp only [applyFilters] at hmem
      have := (List.mem_filter.mp hmem).2
      rw [hkeep] at this
      cases this
    · intro hmem
      simp only [mockFilter] at hmem
      rw [htr] at hmem
      simp only [if_true] at hmem
      have h2 := (List.mem_filter.mp hmem).2
      simp only [decide_eq_true_eq] at h2
      rw [hr] at h2
      simp only [Option.getD_some] at h2
      rw [ratingVal, hrnone] at h2
      simp at h2
      linarith
  · constructor
    · rfl
    · rfl

/-- C8, evaluated at a failing input: the vector hits come back ordered
`["m2", "m1"]` while `getProductsByIds` returns products in catalog
order `["m1", "m2"]`, so the index-based tagging gives product `"m1"`
the score of `"m2"` — not the score of the vector result bearing its own
id. -/
theorem vector_confidence_misaligned :
    (SearchService.vectorEnhancedProducts [laptopPro, laptopAir]
        [⟨"m2", 9⟩, ⟨"m1", 5⟩]).map (fun p => (p.id, p.confidence)) =
      [("m1", (9 : ℚ)), ("m2", 5)] ∧
    ((([⟨"m2", 9⟩, ⟨"m1", 5⟩] : List VectorSearchResult).find?
        (fun r => r.productId == "m1")).map (fun r => r.score)) = some 5 ∧
    (9 : ℚ) ≠ 5 := by
  refine ⟨by decide, by decide, by decide⟩

/-! ## C6: the limit bound -/

theorem validatePage_ge {po : Option Int} {page : Nat}
    (h : SearchRoutes.validatePage po = some page) : 1 ≤ page := by
  cases po with
  | none =>
    injection h with h
    omega
  | some p =>
    simp only [SearchRoutes.validatePage] at h
    split_ifs at h with h1
    injection h with h
    omega

theorem validateLimit_bounds {lo : Option Int} {limit : Nat}
    (h : SearchRoutes.validateLimit lo = some limit) : 1 ≤ limit ∧ limit ≤ 100 := by
  cases lo with
  | none =>
    injection h with h
    omega
  | some l =>
    simp only [SearchRoutes.validateLimit] at h
    split_ifs at h with h1
    injection h with h
    omega

theorem validatePagination_bounds (raw : Option RawPagination)
    (pg : Option SearchPagination)
    (h : SearchRoutes.validatePagination raw = some pg) :
    1 ≤ (pg.getD ⟨1, 20⟩).page ∧ 1 ≤ (pg.getD ⟨1, 20⟩).limit ∧
      (pg.getD ⟨1, 20⟩).limit ≤ 100 := by
  cases raw with
  | none =>
    injection h with h
    subst h
    exact ⟨by decide, by decide, by decide⟩
  | some rp =>
    simp only [SearchRoutes.validatePagination] at h
    split at h
    · injection h with h
      subst h
      rename_i page limit heq1 heq2
      obtain ⟨hl1, hl2⟩ := validateLimit_bounds heq2
      exact ⟨validatePage_ge heq1, hl1, hl2⟩
    · exact absurd h (by simp)

/-- C6, amended: the POST body is validated (not clamped) by
`SearchRequestSchema`, so every request it lets through has an effective
`page ≥ 1` and `limit` in `[1, 100]` — out-of-range values are rejected
with a 400. (The GET route performs no such validation; see the
counterexample.) -/
theorem post_limit_validated (raw : RawSearchRequest) (req : SearchRequest)
    (h : SearchRoutes.parseSearchRequest raw = some req) :
    1 ≤ (req.pagination.getD ⟨1, 20⟩).page ∧
    1 ≤ (req.pagination.getD ⟨1, 20⟩).limit ∧
    (req.pagination.getD ⟨1, 20⟩).limit ≤ 100 := by
  unfold SearchRoutes.parseSearchRequest at h
  split_ifs at h with hq
  cases hvp : SearchRoutes.validatePagination raw.pagination with
  | none =>
    rw [hvp] at h
    exact Option.noConfusion h
  | some pg =>
    cases hsb : SearchRoutes.validateSortBy raw.sortBy with
    | none =>
      rw [hvp, hsb] at h
      exact Option.noConfusion h
    | some sb =>
      rw [hvp, hsb] at h
      injection h with h
      subst h
      exact validatePagination_bounds raw.pagination pg hvp

theorem post_limit_validated_witness :
    1 ≤ ((some (SearchPagination.mk 2 50) : Option SearchPagination).getD ⟨1, 20⟩).page ∧
    1 ≤ ((some (SearchPagination.mk 2 50) : Option SearchPagination).getD ⟨1, 20⟩).limit ∧
    ((some (SearchPagination.mk 2 50) : Option SearchPagination).getD ⟨1, 20⟩).limit ≤ 100 := by
  have h := post_limit_validated ⟨"laptop", none, some ⟨some 2, some 50⟩, none⟩
    ⟨"laptop", none, some ⟨2, 50⟩, some "relevance"⟩ (by rfl)
  simpa using h

/-- C6 counterexample: the GET route accepts `limit=500` without any
clamping, hands it to `searchProducts`, and the request is processed and
answered with that limit — outside `[1, 100]`. -/
theorem limit_clamp_counterexample :
    SearchRoutes.getRouteRequest "laptop" none (some "500") none =
      some ⟨"laptop", none, some ⟨1, 500⟩, some "relevance"⟩ ∧
    ((SearchService.searchProducts emptySearchEnv CacheService.emptyState
        ⟨"laptop", none, some ⟨1, 500⟩, some "relevance"⟩ 0).1.data.map
      (fun d => d.pagination.limit)) = some 500 ∧
    ¬ (500 ≤ 100) := by
  refine ⟨by decide, ?_, by decide⟩
  set_option maxRecDepth 1000000 in decide

/-! ## Witnesses at concrete inputs -/

open ProductAggregationService in
theorem dedup_invariant_witness :
    ∃ s, s ∈ deduplicateProducts [laptopPro, laptopProDup] ∧
      s ∈ [laptopPro, laptopProDup] ∧
      dedupKey s = dedupKey laptopProDup ∧
      (laptopProDup.confidence < s.confidence ∨
        (laptopProDup.confidence = s.confidence ∧
          dealScoreVal laptopProDup ≤ dealScoreVal s)) :=
  (dedup_invariant [laptopPro, laptopProDup]).2 laptopProDup (by simp)

theorem pagination_correct_witness :
    ∃ d, (SearchService.searchProducts emptySearchEnv CacheService.emptyState
        ⟨"laptop", none, some ⟨1, 20⟩, none⟩ 0).1.data = some d ∧
      d.pagination.total = (SearchService.computeSearchResults emptySearchEnv
        ⟨"laptop", none, some ⟨1, 20⟩, none⟩
        ((none : Option String).getD "relevance")).length ∧
      d.pagination.totalPages = ⌈(d.pagination.total : ℚ) / ((20 : Nat) : ℚ)⌉₊ ∧
      d.items = ((SearchService.computeSearchResults emptySearchEnv
        ⟨"laptop", none, some ⟨1, 20⟩, none⟩
        ((none : Option String).getD "relevance")).drop ((1 - 1) * 20)).take 20 ∧
      d.pagination.hasNext = decide (1 < d.pagination.totalPages) ∧
      d.pagination.hasPrev = decide (1 < 1) ∧
      d.items.length ≤ 20 :=
  pagination_correct emptySearchEnv CacheService.emptyState
    ⟨"laptop", none, some ⟨1, 20⟩, none⟩ 0 1 20 rfl (by decide) (by decide)
    (by set_option maxRecDepth 1000000 in decide)

theorem fallback_static_catalog_witness :
    (SearchService.searchProducts ⟨.error (), .error (), .error (), [laptopPro]⟩
        CacheService.emptyState ⟨"laptop", none, some ⟨1, 20⟩, none⟩ 0).1.success = true ∧
    ∃ d, (SearchService.searchProducts ⟨.error (), .error (), .error (), [laptopPro]⟩
        CacheService.emptyState ⟨"laptop", none, some ⟨1, 20⟩, none⟩ 0).1.data = some d ∧
      ∀ p ∈ d.items, p ∈ (⟨.error (), .error (), .error (),
        [laptopPro]⟩ : SearchEnv).mockCatalog :=
  fallback_static_catalog ⟨.error (), .error (), .error (), [laptopPro]⟩
    CacheService.emptyState ⟨"laptop", none, some ⟨1, 20⟩, none⟩ 0 rfl rfl
    (by set_option maxRecDepth 1000000 in decide)

theorem cache_idempotent_witness :
    (SearchService.searchProducts emptySearchEnv
      (SearchService.searchProducts emptySearchEnv CacheService.emptyState
        ⟨"laptop", none, some ⟨1, 20⟩, none⟩ 0).2
      ⟨"laptop", none, some ⟨1, 20⟩, none⟩ 1000).1 =
      { (SearchService.searchProducts emptySearchEnv CacheService.emptyState
          ⟨"laptop", none, some ⟨1, 20⟩, none⟩ 0).1 with timestamp := 1000 } :=
  cache_idempotent emptySearchEnv CacheService.emptyState
    ⟨"laptop", none, some ⟨1, 20⟩, none⟩ 0 1000
    (by set_option maxRecDepth 1000000 in decide) (by decide)

open ProductAggregationService in
theorem relevance_exact_before_substring_witness :
    SearchService.sortProducts
      (ProductAggregationService.sortProducts [laptopPro, laptopProMax]
        "relevance" "Laptop pro") "relevance" = [laptopPro, laptopProMax] ∧
    SearchService.sortProducts
      (ProductAggregationService.sortProducts [laptopProMax, laptopPro]
        "relevance" "Laptop pro") "relevance" = [laptopPro, laptopProMax] :=
  relevance_exact_before_substring "Laptop pro" laptopPro laptopProMax
    (by decide) (by decide) (by decide) rfl rfl rfl rfl (by decide) (by decide)
    (by decide)

open ProductAggregationService SearchService in
theorem min_rating_filter_witness :
    laptopNoRating ∉ applyFilters [laptopNoRating]
      (some ⟨none, none, none, none, some 3⟩) ∧
    laptopNoRating ∉ mockFilter [laptopNoRating]
      (some ⟨none, none, none, none, some 3⟩) :=
  (min_rating_filter ⟨none, none, none, none, some 3⟩ [laptopNoRating]
    laptopNoRating).1 3 rfl (by decide) rfl
